import Mathlib

/-!
Verification of the pyrdc utility library (memoized call cache, singleton and
borg registries, exception wrapper, key builder, list helpers) against its
specification.  The Python modules `pyrdc/utils.py`, `pyrdc/decorators.py`,
`pyrdc/patterns.py` and `pyrdc/exc.py` are shallowly embedded: Python values
are an inductive type `PyVal`, the `str`/`repr` conversions used by string
formatting are modelled explicitly, dictionaries are association lists with
last-write-wins update, and the process-global registries become explicit
state records threaded through the operations.
-/

/-- Atomic Python values: integers, strings and `None`. -/
inductive PyAtom where
  | int : Int → PyAtom
  | str : String → PyAtom
  | none : PyAtom
deriving DecidableEq, Repr

/-- Python values, restricted to the shapes the claims exercise: atoms, and
lists/tuples of atoms (one container level; the library code never inspects
deeper structure, it only formats values).  Equality is Python value equality
(`==`) for these shapes.  Lists are mutable and unhashable; tuples of atoms
are hashable. -/
inductive PyVal where
  | atom : PyAtom → PyVal
  | list : List PyAtom → PyVal
  | tuple : List PyAtom → PyVal
deriving DecidableEq, Repr

/-- Shorthand for an integer value. -/
def PyVal.int (n : Int) : PyVal := .atom (.int n)

/-- Shorthand for a string value. -/
def PyVal.str (s : String) : PyVal := .atom (.str s)

/-- Shorthand for `None`. -/
def PyVal.none : PyVal := .atom .none

/-- Python `repr` of an atom.  Matches CPython: integers print plainly,
strings are quoted (the claims never put quotes or escapes inside string
values, so escaping is not modelled). -/
def atomRepr : PyAtom → String
  | .int n => toString n
  | .str s => "'" ++ s ++ "'"
  | .none => "None"

/-- Python `str` of an atom: identical to `repr` except on strings (no
quotes). -/
def atomStr : PyAtom → String
  | .int n => toString n
  | .str s => s
  | .none => "None"

/-- Python `repr` of a value.  Container elements are rendered with `repr`;
a one-element tuple prints with a trailing comma, as in CPython. -/
def pyRepr : PyVal → String
  | .atom a => atomRepr a
  | .list xs => "[" ++ String.intercalate ", " (xs.map atomRepr) ++ "]"
  | .tuple [x] => "(" ++ atomRepr x ++ ",)"
  | .tuple xs => "(" ++ String.intercalate ", " (xs.map atomRepr) ++ ")"

/-- Python `str` of a value, as used by `"{0}".format(...)`: identical to
`repr` except on strings (no quotes) — which is why `to_key` cannot tell the
identity `1` from the identity `"1"`. -/
def pyStr : PyVal → String
  | .atom a => atomStr a
  | v => pyRepr v

/-- Whether a Python value is hashable: lists are not; atoms and tuples of
atoms are. -/
def hashable : PyVal → Bool
  | .atom _ => true
  | .list _ => false
  | .tuple _ => true

/-- Dictionary lookup, `d[k]` as an `Option` (`none` models `KeyError`). -/
def lookupA {κ α : Type} [DecidableEq κ] (l : List (κ × α)) (k : κ) : Option α :=
  match l with
  | [] => Option.none
  | p :: rest => if p.1 = k then some p.2 else lookupA rest k

/-- Dictionary assignment `d[k] = v`: replaces in place if the key is
present, otherwise appends (insertion order, as in CPython dicts). -/
def updateA {κ α : Type} [DecidableEq κ] (l : List (κ × α)) (k : κ) (v : α) :
    List (κ × α) :=
  match l with
  | [] => [(k, v)]
  | p :: rest => if p.1 = k then (k, v) :: rest else p :: updateA rest k v

theorem lookupA_updateA_self {κ α : Type} [DecidableEq κ]
    (l : List (κ × α)) (k : κ) (v : α) : lookupA (updateA l k v) k = some v := by
  induction l with
  | nil => simp [lookupA, updateA]
  | cons p rest ih =>
      by_cases h : p.1 = k <;> simp [lookupA, updateA, h, ih]

theorem lookupA_updateA_ne {κ α : Type} [DecidableEq κ]
    (l : List (κ × α)) (k k' : κ) (v : α) (h : k ≠ k') :
    lookupA (updateA l k v) k' = lookupA l k' := by
  induction l with
  | nil => simp [lookupA, updateA, h]
  | cons p rest ih =>
      by_cases hp : p.1 = k
      · subst hp; simp [lookupA, updateA, h]
      · simp [lookupA, updateA, hp, ih]

/-- Keyword arguments of a call: the items of a Python `dict`, i.e. an
association list whose keys (`String` names) are pairwise distinct. -/
abbrev Kwargs := List (String × PyVal)

/-- Lexicographic comparison of character lists by code point, the order
Python uses on strings. -/
def charListLE : List Char → List Char → Bool
  | [], _ => true
  | _ :: _, [] => false
  | c :: cs, d :: ds =>
      if c.toNat < d.toNat then true
      else if c.toNat = d.toNat then charListLE cs ds
      else false

/-- Python string comparison `s <= t`: lexicographic on code points. -/
def strLE (s t : String) : Bool := charListLE s.data t.data

theorem charListLE_cons_iff {x y : Char} {xs ys : List Char} :
    charListLE (x :: xs) (y :: ys) = true ↔
      x.toNat < y.toNat ∨ (x.toNat = y.toNat ∧ charListLE xs ys = true) := by
  simp only [charListLE]
  split_ifs with h1 h2
  · simp [h1]
  · simp [h1, h2]
  · simp [h1, h2]

theorem charListLE_total : ∀ a b : List Char,
    charListLE a b = true ∨ charListLE b a = true
  | [], _ => Or.inl rfl
  | _ :: _, [] => Or.inr rfl
  | x :: xs, y :: ys => by
      rcases Nat.lt_trichotomy x.toNat y.toNat with h | h | h
      · exact Or.inl (charListLE_cons_iff.mpr (Or.inl h))
      · rcases charListLE_total xs ys with h' | h'
        · exact Or.inl (charListLE_cons_iff.mpr (Or.inr ⟨h, h'⟩))
        · exact Or.inr (charListLE_cons_iff.mpr (Or.inr ⟨h.symm, h'⟩))
      · exact Or.inr (charListLE_cons_iff.mpr (Or.inl h))

theorem charListLE_trans : ∀ {a b c : List Char}, charListLE a b = true →
    charListLE b c = true → charListLE a c = true
  | [], _, _, _, _ => rfl
  | _ :: _, [], _, h, _ => by simp [charListLE] at h
  | _ :: _, _ :: _, [], _, h => by simp [charListLE] at h
  | x :: xs, y :: ys, z :: zs, hab, hbc => by
      rcases charListLE_cons_iff.mp hab with h1 | ⟨h1, r1⟩ <;>
        rcases charListLE_cons_iff.mp hbc with h2 | ⟨h2, r2⟩
      · exact charListLE_cons_iff.mpr (Or.inl (h1.trans h2))
      · exact charListLE_cons_iff.mpr (Or.inl (h2 ▸ h1))
      · exact charListLE_cons_iff.mpr (Or.inl (h1 ▸ h2))
      · exact charListLE_cons_iff.mpr
          (Or.inr ⟨h1.trans h2, charListLE_trans r1 r2⟩)

theorem charListLE_antisymm : ∀ {a b : List Char}, charListLE a b = true →
    charListLE b a = true → a = b
  | [], [], _, _ => rfl
  | [], _ :: _, _, h => by simp [charListLE] at h
  | _ :: _, [], h, _ => by simp [charListLE] at h
  | x :: xs, y :: ys, hab, hba => by
      rcases charListLE_cons_iff.mp hab with h1 | ⟨h1, r1⟩ <;>
        rcases charListLE_cons_iff.mp hba with h2 | ⟨h2, r2⟩ <;>
        try omega
      have hx : x = y :=
        Char.eq_of_val_eq (UInt32.eq_of_toBitVec_eq (BitVec.eq_of_toNat_eq h1))
      rw [hx, charListLE_antisymm r1 r2]

theorem strLE_antisymm {s t : String} (h : strLE s t = true)
    (h' : strLE t s = true) : s = t := by
  cases s; cases t
  exact congrArg String.mk (charListLE_antisymm h h')

/-- Ordering used by `sorted(kwargs.items())`.  Python sorts the `(name,
value)` tuples lexicographically; since a dict's keys are distinct, the
comparison never reaches the values, so sorting by name alone is faithful. -/
def kwLE (p q : String × PyVal) : Prop := strLE p.1 q.1 = true

instance : DecidableRel kwLE := fun p q =>
  inferInstanceAs (Decidable (strLE p.1 q.1 = true))

instance : IsTotal (String × PyVal) kwLE :=
  ⟨fun a b => charListLE_total a.1.data b.1.data⟩

instance : IsTrans (String × PyVal) kwLE :=
  ⟨fun _ _ _ h h' => charListLE_trans h h'⟩

/-- The strict version of `kwLE` (distinct names), used to show that sorting
a dict's items is insensitive to their insertion order. -/
def kwLT (p q : String × PyVal) : Prop := kwLE p q ∧ p.1 ≠ q.1

instance : IsAntisymm (String × PyVal) kwLT :=
  ⟨fun _ _ h h' => (h.2 (strLE_antisymm h.1 h'.1)).elim⟩

/-- `sorted(kwargs.items())`. -/
def sortKwargs (l : Kwargs) : Kwargs := l.insertionSort kwLE

/-- Python `repr` of the `args` tuple inside `to_key` (the elements are
arbitrary values here, e.g. a list argument renders as `([1, 2],)`). -/
def reprArgs : List PyVal → String
  | [x] => "(" ++ pyRepr x ++ ",)"
  | xs => "(" ++ String.intercalate ", " (xs.map pyRepr) ++ ")"

/-- Python `repr` of a list of `(name, value)` items, as produced for
`sorted(kwargs.items())` inside `to_key`. -/
def reprItems (l : Kwargs) : String :=
  "[" ++ String.intercalate ", "
    (l.map fun p => "(" ++ atomRepr (.str p.1) ++ ", " ++ pyRepr p.2 ++ ")") ++ "]"

/-- `pyrdc.utils.to_key(name, *args, **kwargs)`:
`"{0}{1}{2}".format(name, args, sorted(kwargs.items()))`.  `format` applies
`str` to `name` and to the tuple `args` / list of sorted items (whose
rendering recurses with `repr` on the elements). -/
def to_key (name : PyVal) (args : List PyVal) (kwargs : Kwargs) : String :=
  pyStr name ++ reprArgs args ++ reprItems (sortKwargs kwargs)

theorem to_key_plain_args :
    to_key (.str "f") [.int 1, .int 2] [] = "f(1, 2)[]" := by decide

theorem to_key_sorts_kwargs :
    to_key (.str "f") [.int 1, .int 2] [("b", .int 2), ("a", .int 1)]
      = "f(1, 2)[('a', 1), ('b', 2)]" := by decide

theorem to_key_list_argument :
    to_key (.str "f") [.list [.int 1, .int 2]] [] = "f([1, 2],)[]" := by decide

theorem sortKwargs_sorted_strict (l : Kwargs) (hnd : (l.map Prod.fst).Nodup) :
    List.Sorted kwLT (sortKwargs l) := by
  have hperm : (sortKwargs l).Perm l := List.perm_insertionSort kwLE l
  have hle : List.Sorted kwLE (sortKwargs l) := List.sorted_insertionSort kwLE l
  have hnd' : ((sortKwargs l).map Prod.fst).Nodup :=
    ((hperm.map Prod.fst).nodup_iff).mpr hnd
  have hne : (sortKwargs l).Pairwise (fun p q => p.1 ≠ q.1) :=
    List.pairwise_map.mp hnd'
  exact hle.and hne

/-- Sorting the items of a dict does not depend on the order in which the
items are listed: any two listings of the same set of `(name, value)` pairs
(with pairwise-distinct names) sort to the same list. -/
theorem sortKwargs_perm_eq {l₁ l₂ : Kwargs} (hp : l₁.Perm l₂)
    (hnd : (l₁.map Prod.fst).Nodup) : sortKwargs l₁ = sortKwargs l₂ := by
  have hnd₂ : (l₂.map Prod.fst).Nodup := ((hp.map Prod.fst).nodup_iff).mp hnd
  have hperm : (sortKwargs l₁).Perm (sortKwargs l₂) :=
    ((List.perm_insertionSort kwLE l₁).trans hp).trans
      (List.perm_insertionSort kwLE l₂).symm
  exact List.eq_of_perm_of_sorted hperm (sortKwargs_sorted_strict l₁ hnd)
    (sortKwargs_sorted_strict l₂ hnd₂)

/-- The cache key is insensitive to keyword-argument order: listing the same
keyword `(name, value)` pairs in any order yields the same key. -/
theorem to_key_perm (name : PyVal) (args : List PyVal) {kw₁ kw₂ : Kwargs}
    (hp : kw₁.Perm kw₂) (hnd : (kw₁.map Prod.fst).Nodup) :
    to_key name args kw₁ = to_key name args kw₂ := by
  unfold to_key
  rw [sortKwargs_perm_eq hp hnd]

/-!
## Memoized call cache — `pyrdc.decorators.memoized`

`memoized.__call__(*args, **kwargs)` looks up
`self.cache[utils.to_key(self.func, *args, **kwargs)]`; on `KeyError` it
computes `self.func(*args, **kwargs)`, stores it under the key and returns
it.  The source also has an `except TypeError` fallback ("uncachable" –
skip the cache); it is unreachable here because `to_key` always returns a
string, which is always hashable, so the model has no such branch (this is
the subject of claim C5).  `self.func` is a fixed function object; its
`str` image (e.g. `<function f at 0x...>`) is the `funcName` parameter.
-/

/-- Result of one `memoized.__call__`: the returned value, the cache
afterwards, and how many times the wrapped function was invoked during the
call (0 or 1). -/
structure CallResult where
  value : PyVal
  cache : List (String × PyVal)
  invocations : Nat
deriving Repr, DecidableEq

/-- One `memoized.__call__`.  `func` is the wrapped callable, modelled as a
pure function of the call arguments. -/
def memoized.call (func : List PyVal → Kwargs → PyVal) (funcName : String)
    (cache : List (String × PyVal)) (args : List PyVal) (kwargs : Kwargs) :
    CallResult :=
  let key := to_key (.str funcName) args kwargs
  match lookupA cache key with
  | some v => ⟨v, cache, 0⟩
  | Option.none =>
      let v := func args kwargs
      ⟨v, updateA cache key v, 1⟩

/-- A sequence of calls through the same `memoized` wrapper: returns the
list of call results, the final cache, and the total number of invocations
of the wrapped function. -/
def memoized.callSeq (func : List PyVal → Kwargs → PyVal) (funcName : String)
    (cache : List (String × PyVal)) :
    List (List PyVal × Kwargs) → List PyVal × List (String × PyVal) × Nat
  | [] => ([], cache, 0)
  | (a, kw) :: rest =>
      let r := memoized.call func funcName cache a kw
      let s := memoized.callSeq func funcName r.cache rest
      (r.value :: s.1, s.2.1, r.invocations + s.2.2)

theorem memoized_call_hit (func : List PyVal → Kwargs → PyVal)
    (funcName : String) (cache : List (String × PyVal)) (args : List PyVal)
    (kwargs : Kwargs) (v : PyVal)
    (h : lookupA cache (to_key (.str funcName) args kwargs) = some v) :
    memoized.call func funcName cache args kwargs = ⟨v, cache, 0⟩ := by
  unfold memoized.call
  simp [h]

theorem memoized_call_miss (func : List PyVal → Kwargs → PyVal)
    (funcName : String) (cache : List (String × PyVal)) (args : List PyVal)
    (kwargs : Kwargs)
    (h : lookupA cache (to_key (.str funcName) args kwargs) = Option.none) :
    memoized.call func funcName cache args kwargs =
      ⟨func args kwargs,
       updateA cache (to_key (.str funcName) args kwargs) (func args kwargs),
       1⟩ := by
  unfold memoized.call
  simp [h]

theorem memoized_callSeq_all_hits (func : List PyVal → Kwargs → PyVal)
    (funcName : String) (cache : List (String × PyVal)) (key : String)
    (v : PyVal) (hv : lookupA cache key = some v) :
    ∀ calls : List (List PyVal × Kwargs),
      (∀ p ∈ calls, to_key (.str funcName) p.1 p.2 = key) →
      memoized.callSeq func funcName cache calls =
        (List.replicate calls.length v, cache, 0)
  | [], _ => rfl
  | (a, kw) :: rest, h => by
      have hk : to_key (.str funcName) a kw = key :=
        h (a, kw) (List.mem_cons_self _ _)
      have hhit := memoized_call_hit func funcName cache a kw v (hk ▸ hv)
      have ih := memoized_callSeq_all_hits func funcName cache key v hv rest
        (fun p hp => h p (List.mem_cons_of_mem _ hp))
      simp [memoized.callSeq, hhit, ih, List.replicate]

/-!
## Keyed instance registry — `pyrdc.patterns.Singleton`

`Singleton.get_instance(cls)` returns `inner(*args, **kwargs)`, which builds
`key = utils.to_key(cls, *args, **kwargs)`, returns
`Singleton.__instances[key]` on a hit, and on `KeyError` constructs
`instance = cls(*args, **kwargs)`, registers it and returns it.  Python
object identity is modelled by allocating consecutive `Nat` ids: every
successful construction yields a fresh id (`nextId`), so two objects are
identical iff their ids are equal.  A constructor that raises is modelled by
`ctorRaises`: the assignment into `__instances` is then never reached, so
the exception propagates with the registry unchanged.
-/

/-- A class wrapped by `Singleton.get_instance`: its `str` image (e.g.
`<class 'A'>`), used by `to_key`, and whether `cls(*args, **kwargs)` raises
for the given arguments. -/
structure SingClass where
  clsName : String
  ctorRaises : List PyVal → Kwargs → Bool

/-- The global `Singleton.__instances` dictionary plus the allocator for
fresh object identities. -/
structure SingletonState where
  instances : List (String × Nat)
  nextId : Nat
deriving Repr, DecidableEq

/-- Result of one `inner(*args, **kwargs)` call: the returned instance id
(`Option.none` when the constructor raised and the exception propagates),
the registry state afterwards, and how many times the wrapped constructor
ran during the call. -/
structure SingResult where
  obj : Option Nat
  state : SingletonState
  ctorRuns : Nat
deriving Repr, DecidableEq

/-- `Singleton.get_instance`'s `inner`. -/
def Singleton.get_instance (cls : SingClass) (args : List PyVal)
    (kwargs : Kwargs) (s : SingletonState) : SingResult :=
  let key := to_key (.str cls.clsName) args kwargs
  match lookupA s.instances key with
  | some obj => ⟨some obj, s, 0⟩
  | Option.none =>
      if cls.ctorRaises args kwargs then ⟨Option.none, s, 1⟩
      else ⟨some s.nextId,
            ⟨updateA s.instances key s.nextId, s.nextId + 1⟩, 1⟩

/-!
## Keyed shared-state registry — `pyrdc.patterns.Borg` (open attributes)

`Borg.share(cls)` returns `outer_inner(*args, **kwargs)`: on the first
construction it marks the class decorated and wraps `cls.__init__` with
`inner`, then constructs `cls(*args, **kwargs)`.  The wrapped `inner` sets
`key = utils.to_key(cls)` (class identity only, no constructor arguments),
aliases `self.__dict__` to `Borg.__shared[key]`, creating and registering a
fresh empty dict on `KeyError`, and in a `finally` block always runs the
original `__init__`.  Python dict objects live on a heap of `Nat`
references; an object's `__dict__` is such a reference, so objects sharing
a key alias one store.  The original `__init__` is modelled as the list of
attribute writes it performs (`initWrites`) followed, when `initRaises`,
by an exception.
-/

/-- A class wrapped by `Borg.share` (no `__slots__`). -/
structure BorgClass where
  clsName : String
  initWrites : List PyVal → Kwargs → List (String × PyVal)
  initRaises : List PyVal → Kwargs → Bool

/-- The global `Borg.__shared` dictionary (key → dict reference), the heap
of dict objects, the allocator for fresh references, and the set of classes
carrying the `__decorated` marker. -/
structure BorgState where
  shared : List (String × Nat)
  heap : List (Nat × List (String × PyVal))
  nextRef : Nat
  decorated : List String
deriving Repr, DecidableEq

/-- The empty registry (process start). -/
def borgInit : BorgState := ⟨[], [], 0, []⟩

/-- An object constructed through a borg-decorated class: it is
distinguished only by which dict its `__dict__` references. -/
structure BorgObj where
  dictRef : Nat
deriving Repr, DecidableEq

/-- `self.attr = v` through an object: writes into the dict its `__dict__`
references. -/
def setAttrRef (s : BorgState) (ref : Nat) (name : String) (v : PyVal) :
    BorgState :=
  { s with heap := updateA s.heap ref (updateA ((lookupA s.heap ref).getD []) name v) }

/-- Run the original `__init__`'s attribute writes against the dict `self`
references. -/
def runInit (s : BorgState) (ref : Nat) (writes : List (String × PyVal)) :
    BorgState :=
  writes.foldl (fun st w => setAttrRef st ref w.1 w.2) s

/-- `getattr(obj, name)` for an open-attribute borg object. -/
def Borg.getAttr (s : BorgState) (o : BorgObj) (name : String) : Option PyVal :=
  lookupA ((lookupA s.heap o.dictRef).getD []) name

/-- `obj.name = v` for an open-attribute borg object. -/
def Borg.setAttr (s : BorgState) (o : BorgObj) (name : String) (v : PyVal) :
    BorgState :=
  setAttrRef s o.dictRef name v

/-- Result of one `outer_inner(*args, **kwargs)` construction: the new
object (`Option.none` when `__init__` raised and the exception propagates),
the state afterwards, and whether the original `__init__` ran. -/
structure BorgResult where
  obj : Option BorgObj
  state : BorgState
  initRan : Bool
deriving Repr, DecidableEq

/-- `Borg.share`'s `outer_inner` for a class without `__slots__`.  The
`decorated` marker only guards re-wrapping `__init__`; the wrapped
`__init__` behaves identically on every construction, so marking is state
bookkeeping.  Note the order on a miss: the fresh empty dict is registered
under the key BEFORE the original `__init__` runs (and the `finally` runs
it even on the path that found the key present). -/
def Borg.construct (cls : BorgClass) (args : List PyVal) (kwargs : Kwargs)
    (s : BorgState) : BorgResult :=
  let s0 := if cls.clsName ∈ s.decorated then s
            else { s with decorated := cls.clsName :: s.decorated }
  let key := to_key (.str cls.clsName) [] []
  match lookupA s0.shared key with
  | some ref =>
      let s1 := runInit s0 ref (cls.initWrites args kwargs)
      if cls.initRaises args kwargs then ⟨Option.none, s1, true⟩
      else ⟨some ⟨ref⟩, s1, true⟩
  | Option.none =>
      let ref := s0.nextRef
      let s1 := { s0 with shared := updateA s0.shared key ref,
                          heap := updateA s0.heap ref [],
                          nextRef := ref + 1 }
      let s2 := runInit s1 ref (cls.initWrites args kwargs)
      if cls.initRaises args kwargs then ⟨Option.none, s2, true⟩
      else ⟨some ⟨ref⟩, s2, true⟩

/-!
## Borg with `__slots__` — generated property accessors

When the wrapped class declares `__slots__`, `Borg.share` registers
`Borg.__shared[key] = {}` once at decoration and then runs

    for slot in cls.__slots__:
        def setter(self, value):
            Borg.__shared[key][slot] = value
        def getter(self):
            try:
                return Borg.__shared[key][slot]
            except KeyError:
                return None
        setattr(cls, slot, property(getter, setter))

`setattr(cls, slot, ...)` evaluates `slot` eagerly, so a property IS
installed under each slot name; but the `getter`/`setter` bodies refer to
the enclosing function's variable `slot`, which Python closures capture by
variable, not by value.  By the time any accessor runs, the loop has
finished and `slot` holds the LAST element of `__slots__`.  The model makes
this late binding explicit: every accessor, whichever attribute name it was
installed under, reads and writes the store entry of `capturedSlot`, the
last enumerated slot. -/

/-- A class wrapped by `Borg.share` that declares `__slots__` (enumeration
order preserved). -/
structure SlotClass where
  clsName : String
  slots : List String

/-- The value of the loop variable `slot` captured by every generated
accessor: the last enumerated slot. -/
def capturedSlot (cls : SlotClass) : Option String := cls.slots.getLast?

/-- The key under which the class's shared store is registered:
`utils.to_key(cls)`. -/
def slotKey (cls : SlotClass) : String := to_key (.str cls.clsName) [] []

/-- Decoration of a slotted class (performed on the first construction):
register a fresh empty store under the class key and install the
accessors. -/
def Borg.decorateSlotted (cls : SlotClass) (s : BorgState) : BorgState :=
  if cls.clsName ∈ s.decorated then s
  else { shared := updateA s.shared (slotKey cls) s.nextRef,
         heap := updateA s.heap s.nextRef [],
         nextRef := s.nextRef + 1,
         decorated := cls.clsName :: s.decorated }

/-- The property setter installed under attribute name `attr`
(`obj.attr = v`).  Its body is `Borg.__shared[key][slot] = value` with
`slot` late-bound, so `attr` itself is not consulted: the write lands in
the entry of the last enumerated slot. -/
def Borg.slotSet (cls : SlotClass) (attr : String) (v : PyVal)
    (s : BorgState) : BorgState :=
  if attr ∈ cls.slots then
    match capturedSlot cls, lookupA s.shared (slotKey cls) with
    | some slot, some ref => setAttrRef s ref slot v
    | _, _ => s
  else s

/-- The property getter installed under attribute name `attr` (`obj.attr`):
`Borg.__shared[key][slot]`, with `slot` late-bound as above, and `None` on
`KeyError`. -/
def Borg.slotGet (cls : SlotClass) (attr : String) (s : BorgState) : PyVal :=
  if attr ∈ cls.slots then
    match capturedSlot cls, lookupA s.shared (slotKey cls) with
    | some slot, some ref =>
        ((lookupA ((lookupA s.heap ref).getD []) slot).getD .none)
    | _, _ => .none
  else .none

/-!
## Exception wrapper — `pyrdc.exc.wrapper`

`wrapper(func, args, kwargs, errors, msg, error_func)` runs
`func(*args, **kwargs)`; on an exception matched by `except errors` it
returns `error_func(error, msg)` instead.  Exception classes are modelled
as atoms (their names); `isinstance`-matching against the recognized tuple
is flattened into membership of the raised kind in the list `errors`.  The
handler is modelled as a pure function of the failure and the message (the
default handler, `print`, returns `None`). -/

/-- A Python callable that can raise: `Except kind value`. -/
def PyFunc := List PyVal → Kwargs → Except String PyVal

/-- `pyrdc.exc.wrapper`. -/
def wrapper (func : PyFunc) (args : List PyVal) (kwargs : Kwargs)
    (errors : List String) (msg : String)
    (error_func : String → String → PyVal) : Except String PyVal :=
  match func args kwargs with
  | .ok v => .ok v
  | .error e => if e ∈ errors then .ok (error_func e msg) else .error e

/-!
## List deduplication — `pyrdc.utils.unique_list`

`unique_list(seq)` is
`seen = set(); [item for item in seq if item not in seen and not seen.add(item)]`:
`set.add` returns `None`, so `not seen.add(item)` is always true and only
runs when `item not in seen` — the comprehension keeps exactly the first
occurrence of each element.  `item not in seen` hashes `item`, so an
unhashable element raises `TypeError` (modelled as `Option.none`); the set
is modelled as the list of elements seen so far, with membership by value
equality. -/

/-- The comprehension's traversal, carrying the `seen` set. -/
def unique_list.go (seen : List PyVal) : List PyVal → Option (List PyVal)
  | [] => some []
  | x :: xs =>
      if hashable x then
        if x ∈ seen then unique_list.go seen xs
        else (unique_list.go (x :: seen) xs).map (x :: ·)
      else Option.none

/-- `pyrdc.utils.unique_list`. -/
def unique_list (seq : List PyVal) : Option (List PyVal) :=
  unique_list.go [] seq

/-- Modelled from the claim's words, for comparison with `unique_list`: the
distinct elements of the input, each once, in order of first occurrence
(keep the head, remove its duplicates from the deduplicated tail,
recurse). -/
def dedupFirst : List PyVal → List PyVal
  | [] => []
  | x :: xs => x :: (dedupFirst xs).filter (fun a => decide (a ≠ x))

theorem mem_dedupFirst (a : PyVal) : ∀ l : List PyVal,
    a ∈ dedupFirst l ↔ a ∈ l
  | [] => Iff.rfl
  | x :: xs => by
      by_cases h : a = x
      · simp [dedupFirst, h]
      · simp [dedupFirst, h, List.mem_filter, mem_dedupFirst a xs]

theorem nodup_dedupFirst : ∀ l : List PyVal, (dedupFirst l).Nodup
  | [] => List.nodup_nil
  | x :: xs => by
      refine List.Nodup.cons ?_ ((nodup_dedupFirst xs).filter _)
      intro hmem
      rcases List.mem_filter.mp hmem with ⟨_, hne⟩
      simp at hne

theorem dedupFirst_sublist : ∀ l : List PyVal, (dedupFirst l).Sublist l
  | [] => List.Sublist.refl []
  | x :: xs =>
      ((List.filter_sublist _).trans (dedupFirst_sublist xs)).cons₂ x

theorem unique_list_go_eq (xs : List PyVal) :
    ∀ seen : List PyVal, (∀ a ∈ xs, hashable a = true) →
      unique_list.go seen xs =
        some ((dedupFirst xs).filter (fun a => decide (a ∉ seen))) := by
  induction xs with
  | nil => intro seen _; rfl
  | cons x xs ih =>
      intro seen hh
      have hx : hashable x = true := hh x (List.mem_cons_self _ _)
      have hxs : ∀ a ∈ xs, hashable a = true :=
        fun a ha => hh a (List.mem_cons_of_mem _ ha)
      by_cases hseen : x ∈ seen
      · have : unique_list.go seen (x :: xs) = unique_list.go seen xs := by
          simp [unique_list.go, hx, hseen]
        rw [this, ih seen hxs]
        congr 1
        simp only [dedupFirst, List.filter_cons]
        have hxdrop : (decide (x ∉ seen)) = false := by simp [hseen]
        rw [hxdrop]
        simp only [List.filter_filter]
        refine (List.filter_congr ?_).symm
        intro a _
        by_cases hax : a = x
        · subst hax; simp [hseen]
        · simp [hax]
      · have : unique_list.go seen (x :: xs) =
            (unique_list.go (x :: seen) xs).map (x :: ·) := by
          simp [unique_list.go, hx, hseen]
        rw [this, ih (x :: seen) hxs]
        simp only [Option.map_some']
        congr 1
        simp only [dedupFirst, List.filter_cons]
        have hxkeep : (decide (x ∉ seen)) = true := by simp [hseen]
        rw [hxkeep]
        simp only [List.filter_filter]
        congr 1
        refine List.filter_congr ?_
        intro a _
        by_cases hax : a = x
        · subst hax; simp
        · simp [hax, List.mem_cons]

theorem unique_list_eq_dedupFirst (seq : List PyVal)
    (h : ∀ a ∈ seq, hashable a = true) :
    unique_list seq = some (dedupFirst seq) := by
  rw [unique_list, unique_list_go_eq seq [] h]
  congr 1
  refine List.filter_eq_self.mpr ?_
  intro a _
  simp

theorem runInit_shared (ref : Nat) :
    ∀ (ws : List (String × PyVal)) (s : BorgState),
      (runInit s ref ws).shared = s.shared
  | [], _ => rfl
  | w :: ws, s => by
      show (runInit (setAttrRef s ref w.1 w.2) ref ws).shared = s.shared
      rw [runInit_shared ref ws]
      rfl

theorem runInit_nextRef (ref : Nat) :
    ∀ (ws : List (String × PyVal)) (s : BorgState),
      (runInit s ref ws).nextRef = s.nextRef
  | [], _ => rfl
  | w :: ws, s => by
      show (runInit (setAttrRef s ref w.1 w.2) ref ws).nextRef = s.nextRef
      rw [runInit_nextRef ref ws]
      rfl

/-- Writing an attribute through an object and reading the same attribute
through any object whose `__dict__` references the same dict yields the
written value. -/
theorem getAttr_setAttr_same (s : BorgState) (o o' : BorgObj)
    (href : o.dictRef = o'.dictRef) (name : String) (v : PyVal) :
    Borg.getAttr (Borg.setAttr s o name v) o' name = some v := by
  unfold Borg.getAttr Borg.setAttr setAttrRef
  rw [← href]
  simp [lookupA_updateA_self]

/-- After a successful construction, the returned object's `__dict__` is
exactly the dict registered in `Borg.__shared` under the class key. -/
theorem borg_construct_obj_shared (cls : BorgClass) (args : List PyVal)
    (kwargs : Kwargs) (s : BorgState)
    (hok : cls.initRaises args kwargs = false) :
    ∃ ref : Nat,
      (Borg.construct cls args kwargs s).obj = some ⟨ref⟩ ∧
      lookupA (Borg.construct cls args kwargs s).state.shared
        (to_key (.str cls.clsName) [] []) = some ref := by
  by_cases hd : cls.clsName ∈ s.decorated <;>
    rcases hl : lookupA s.shared (to_key (.str cls.clsName) [] []) with _ | ref
  · exact ⟨s.nextRef, by simp [Borg.construct, hd, hl, hok],
      by simp [Borg.construct, hd, hl, hok, runInit_shared, lookupA_updateA_self]⟩
  · exact ⟨ref, by simp [Borg.construct, hd, hl, hok],
      by simp [Borg.construct, hd, hl, hok, runInit_shared]⟩
  · exact ⟨s.nextRef, by simp [Borg.construct, hd, hl, hok],
      by simp [Borg.construct, hd, hl, hok, runInit_shared, lookupA_updateA_self]⟩
  · exact ⟨ref, by simp [Borg.construct, hd, hl, hok],
      by simp [Borg.construct, hd, hl, hok, runInit_shared]⟩

/-- A construction that finds the class key registered returns an object
aliasing the registered dict. -/
theorem borg_construct_hit (cls : BorgClass) (args : List PyVal)
    (kwargs : Kwargs) (t : BorgState) (ref : Nat)
    (hl : lookupA t.shared (to_key (.str cls.clsName) [] []) = some ref)
    (hok : cls.initRaises args kwargs = false) :
    (Borg.construct cls args kwargs t).obj = some ⟨ref⟩ := by
  by_cases hd : cls.clsName ∈ t.decorated <;> simp [Borg.construct, hd, hl, hok]

/-- C3: all objects constructed through a borg-decorated class share one key
(the class identity), hence one dict: two consecutive constructions return
objects referencing the same dict, and an attribute written through either
object is read back, with the written value, through the other. -/
theorem C3_borg_attribute_sharing (cls : BorgClass) (args1 args2 : List PyVal)
    (kw1 kw2 : Kwargs) (s : BorgState)
    (h1 : cls.initRaises args1 kw1 = false)
    (h2 : cls.initRaises args2 kw2 = false) :
    ∃ o1 o2 : BorgObj,
      (Borg.construct cls args1 kw1 s).obj = some o1 ∧
      (Borg.construct cls args2 kw2
          (Borg.construct cls args1 kw1 s).state).obj = some o2 ∧
      o1.dictRef = o2.dictRef ∧
      (∀ name v, Borg.getAttr
          (Borg.setAttr (Borg.construct cls args2 kw2
            (Borg.construct cls args1 kw1 s).state).state o1 name v)
          o2 name = some v) ∧
      (∀ name v, Borg.getAttr
          (Borg.setAttr (Borg.construct cls args2 kw2
            (Borg.construct cls args1 kw1 s).state).state o2 name v)
          o1 name = some v) := by
  obtain ⟨r1, ho1, hs1⟩ := borg_construct_obj_shared cls args1 kw1 s h1
  have ho2 : (Borg.construct cls args2 kw2
      (Borg.construct cls args1 kw1 s).state).obj = some ⟨r1⟩ :=
    borg_construct_hit cls args2 kw2 _ r1 hs1 h2
  exact ⟨⟨r1⟩, ⟨r1⟩, ho1, ho2, rfl,
    fun name v => getAttr_setAttr_same _ _ _ rfl name v,
    fun name v => getAttr_setAttr_same _ _ _ rfl name v⟩

/-- C4: the wrapped initializer runs on every construction through the borg
registry, whether the shared store is fresh or reused (the source runs it in
a `finally` block). -/
theorem C4_borg_init_every_construction (cls : BorgClass) (args : List PyVal)
    (kwargs : Kwargs) (s : BorgState) :
    (Borg.construct cls args kwargs s).initRan = true := by
  by_cases hd : cls.clsName ∈ s.decorated <;>
    rcases hl : lookupA s.shared (to_key (.str cls.clsName) [] []) with _ | ref <;>
    rcases hr : cls.initRaises args kwargs <;>
    simp [Borg.construct, hd, hl, hr]

/-- C1: for every wrapped callable and every argument tuple (in `pyrdc` a
key can always be built), starting from a cache that misses the key, the
first call invokes the wrapped callable and every later call with
value-equal positional arguments and value-equal keyword arguments (listed
in any order) returns the first call's result, the callable being invoked
exactly once for that key across the whole sequence of calls. -/
theorem C1_memoized_single_invocation (func : List PyVal → Kwargs → PyVal)
    (funcName : String) (cache : List (String × PyVal)) (args : List PyVal)
    (kwargs : Kwargs) (repeats : List (List PyVal × Kwargs))
    (hmiss : lookupA cache (to_key (.str funcName) args kwargs) = Option.none)
    (hnd : (kwargs.map Prod.fst).Nodup)
    (hrep : ∀ p ∈ repeats, p.1 = args ∧ p.2.Perm kwargs) :
    memoized.callSeq func funcName cache ((args, kwargs) :: repeats) =
      (List.replicate (repeats.length + 1) (func args kwargs),
       updateA cache (to_key (.str funcName) args kwargs) (func args kwargs),
       1) := by
  have hfirst := memoized_call_miss func funcName cache args kwargs hmiss
  have hkeys : ∀ p ∈ repeats,
      to_key (.str funcName) p.1 p.2 = to_key (.str funcName) args kwargs := by
    intro p hp
    obtain ⟨ha, hperm⟩ := hrep p hp
    have hnd' : (p.2.map Prod.fst).Nodup :=
      ((hperm.map Prod.fst).nodup_iff).mpr hnd
    rw [ha]
    exact to_key_perm (.str funcName) args hperm hnd'
  have hrest := memoized_callSeq_all_hits func funcName
    (updateA cache (to_key (.str funcName) args kwargs) (func args kwargs))
    (to_key (.str funcName) args kwargs) (func args kwargs)
    (lookupA_updateA_self _ _ _) repeats hkeys
  simp [memoized.callSeq, hfirst, hrest, List.replicate_succ]

/-- A concrete callable used by witnesses: returns a value depending on
both the positional and the keyword arguments. -/
def exFunc : List PyVal → Kwargs → PyVal :=
  fun a kw => .int (a.length + kw.length)

theorem C1_memoized_single_invocation_witness :
    memoized.callSeq exFunc "<function f at 0x10>" []
      [([PyVal.int 1], [("b", PyVal.int 2), ("a", PyVal.int 1)]),
       ([PyVal.int 1], [("a", PyVal.int 1), ("b", PyVal.int 2)])] =
      (List.replicate 2 (exFunc [PyVal.int 1]
         [("b", PyVal.int 2), ("a", PyVal.int 1)]),
       updateA [] (to_key (.str "<function f at 0x10>") [PyVal.int 1]
         [("b", PyVal.int 2), ("a", PyVal.int 1)])
         (exFunc [PyVal.int 1] [("b", PyVal.int 2), ("a", PyVal.int 1)]),
       1) :=
  C1_memoized_single_invocation exFunc "<function f at 0x10>" [] [PyVal.int 1]
    [("b", PyVal.int 2), ("a", PyVal.int 1)]
    [([PyVal.int 1], [("a", PyVal.int 1), ("b", PyVal.int 2)])]
    (by decide) (by decide)
    (by
      intro p hp
      rcases List.mem_singleton.mp hp with rfl
      exact ⟨rfl, List.Perm.swap ("b", PyVal.int 2) ("a", PyVal.int 1) []⟩)

/-- C2: two `Singleton` requests for the same class with value-equal
arguments (keywords in any order) return the identical instance, the
constructor running only on the first; a request with a different key
returns a distinct (freshly allocated) instance. -/
theorem C2_singleton_identical_instance (cls : SingClass)
    (args1 args2 : List PyVal) (kw1 kw1' kw2 : Kwargs) (s : SingletonState)
    (hnd : (kw1.map Prod.fst).Nodup) (hperm : kw1'.Perm kw1)
    (hmiss1 : lookupA s.instances
      (to_key (.str cls.clsName) args1 kw1) = Option.none)
    (hraise1 : cls.ctorRaises args1 kw1 = false)
    (hkeydiff : to_key (.str cls.clsName) args2 kw2 ≠
      to_key (.str cls.clsName) args1 kw1)
    (hmiss2 : lookupA s.instances
      (to_key (.str cls.clsName) args2 kw2) = Option.none)
    (hraise2 : cls.ctorRaises args2 kw2 = false) :
    Singleton.get_instance cls args1 kw1 s =
      ⟨some s.nextId,
       ⟨updateA s.instances (to_key (.str cls.clsName) args1 kw1) s.nextId,
        s.nextId + 1⟩, 1⟩ ∧
    Singleton.get_instance cls args1 kw1'
        (Singleton.get_instance cls args1 kw1 s).state =
      ⟨some s.nextId, (Singleton.get_instance cls args1 kw1 s).state, 0⟩ ∧
    (Singleton.get_instance cls args2 kw2
        (Singleton.get_instance cls args1 kw1'
          (Singleton.get_instance cls args1 kw1 s).state).state).obj =
      some (s.nextId + 1) ∧
    some (s.nextId + 1) ≠ (some s.nextId : Option Nat) := by
  have hk1' : to_key (.str cls.clsName) args1 kw1' =
      to_key (.str cls.clsName) args1 kw1 :=
    to_key_perm (.str cls.clsName) args1 hperm
      (((hperm.map Prod.fst).nodup_iff).mpr hnd)
  have e1 : Singleton.get_instance cls args1 kw1 s =
      ⟨some s.nextId,
       ⟨updateA s.instances (to_key (.str cls.clsName) args1 kw1) s.nextId,
        s.nextId + 1⟩, 1⟩ := by
    simp [Singleton.get_instance, hmiss1, hraise1]
  have e2 : Singleton.get_instance cls args1 kw1'
      (Singleton.get_instance cls args1 kw1 s).state =
      ⟨some s.nextId, (Singleton.get_instance cls args1 kw1 s).state, 0⟩ := by
    rw [e1]
    simp [Singleton.get_instance, hk1', lookupA_updateA_self]
  refine ⟨e1, e2, ?_, by simp⟩
  rw [e2, e1]
  simp [Singleton.get_instance,
    lookupA_updateA_ne _ _ _ _ (Ne.symm hkeydiff), hmiss2, hraise2]

/-- A concrete class used by witnesses: a constructor that accepts any
arguments and never raises. -/
def exSingT : SingClass := ⟨"<class 'T'>", fun _ _ => false⟩

theorem C2_singleton_identical_instance_witness :
    Singleton.get_instance exSingT [PyVal.int 1, PyVal.int 2] [] ⟨[], 0⟩ =
      ⟨some 0,
       ⟨updateA [] (to_key (.str exSingT.clsName) [PyVal.int 1, PyVal.int 2] []) 0,
        1⟩, 1⟩ ∧
    Singleton.get_instance exSingT [PyVal.int 1, PyVal.int 2] []
        (Singleton.get_instance exSingT [PyVal.int 1, PyVal.int 2] [] ⟨[], 0⟩).state =
      ⟨some 0,
       (Singleton.get_instance exSingT [PyVal.int 1, PyVal.int 2] [] ⟨[], 0⟩).state,
       0⟩ ∧
    (Singleton.get_instance exSingT [PyVal.int 1] []
        (Singleton.get_instance exSingT [PyVal.int 1, PyVal.int 2] []
          (Singleton.get_instance exSingT [PyVal.int 1, PyVal.int 2] []
            ⟨[], 0⟩).state).state).obj = some 1 ∧
    some 1 ≠ (some 0 : Option Nat) :=
  C2_singleton_identical_instance exSingT [PyVal.int 1, PyVal.int 2]
    [PyVal.int 1] [] [] [] ⟨[], 0⟩ (by decide) (List.Perm.refl [])
    (by decide) (by decide) (by decide) (by decide) (by decide)

/-- A concrete class used by witnesses: `__init__(self, x)` stores its
argument in attribute `x` and never raises. -/
def exBorgShared : BorgClass :=
  ⟨"<class 'Shared'>",
   fun a _ => match a with | [v] => [("x", v)] | _ => [],
   fun _ _ => false⟩

theorem C3_borg_attribute_sharing_witness :
    ∃ o1 o2 : BorgObj,
      (Borg.construct exBorgShared [PyVal.int 3] [] borgInit).obj = some o1 ∧
      (Borg.construct exBorgShared [PyVal.int 3] []
          (Borg.construct exBorgShared [PyVal.int 3] [] borgInit).state).obj =
        some o2 ∧
      o1.dictRef = o2.dictRef ∧
      (∀ name v, Borg.getAttr
          (Borg.setAttr (Borg.construct exBorgShared [PyVal.int 3] []
            (Borg.construct exBorgShared [PyVal.int 3] [] borgInit).state).state
            o1 name v)
          o2 name = some v) ∧
      (∀ name v, Borg.getAttr
          (Borg.setAttr (Borg.construct exBorgShared [PyVal.int 3] []
            (Borg.construct exBorgShared [PyVal.int 3] [] borgInit).state).state
            o2 name v)
          o1 name = some v) :=
  C3_borg_attribute_sharing exBorgShared [PyVal.int 3] [PyVal.int 3] [] []
    borgInit (by decide) (by decide)

/-- The wrapped callable used by the C5 evidence: any pure function
serves. -/
def exF5 : List PyVal → Kwargs → PyVal := fun _ _ => PyVal.int 7

/-- C5: contrary to the claim (and to the intent of the source's dead
`except TypeError` branch), a call with an unhashable argument IS cached:
`to_key` stringifies the arguments, so the key of `f([1, 2])` is the
always-hashable string `<function f at 0x11>([1, 2],)[]`; the first call
stores an entry under it and a repeat call returns the cached value without
re-invoking the callable. -/
theorem C5_unhashable_argument_is_cached :
    hashable (PyVal.list [.int 1, .int 2]) = false ∧
    memoized.call exF5 "<function f at 0x11>" []
        [PyVal.list [.int 1, .int 2]] [] =
      ⟨PyVal.int 7, [("<function f at 0x11>([1, 2],)[]", PyVal.int 7)], 1⟩ ∧
    memoized.call exF5 "<function f at 0x11>"
        [("<function f at 0x11>([1, 2],)[]", PyVal.int 7)]
        [PyVal.list [.int 1, .int 2]] [] =
      ⟨PyVal.int 7, [("<function f at 0x11>([1, 2],)[]", PyVal.int 7)], 0⟩ := by
  decide

/-- C6 (amended): when a constructor raises, the exception propagates in
both registries; the `Singleton` registry is left unchanged (the key is
registered only after construction succeeds, so a later call is a
first-time miss), but the `Borg` registry registers the shared store BEFORE
running the initializer, so the (empty or partially written) store stays
registered under the key. -/
theorem C6_construction_failure (cls : SingClass) (bcls : BorgClass)
    (args bargs : List PyVal) (kwargs bkwargs : Kwargs)
    (s : SingletonState) (bs : BorgState)
    (hmiss : lookupA s.instances
      (to_key (.str cls.clsName) args kwargs) = Option.none)
    (hraise : cls.ctorRaises args kwargs = true)
    (hbmiss : lookupA bs.shared
      (to_key (.str bcls.clsName) [] []) = Option.none)
    (hbraise : bcls.initRaises bargs bkwargs = true) :
    Singleton.get_instance cls args kwargs s = ⟨Option.none, s, 1⟩ ∧
    (Borg.construct bcls bargs bkwargs bs).obj = Option.none ∧
    lookupA (Borg.construct bcls bargs bkwargs bs).state.shared
      (to_key (.str bcls.clsName) [] []) = some bs.nextRef := by
  refine ⟨?_, ?_, ?_⟩
  · simp [Singleton.get_instance, hmiss, hraise]
  · by_cases hd : bcls.clsName ∈ bs.decorated <;>
      simp [Borg.construct, hd, hbmiss, hbraise]
  · by_cases hd : bcls.clsName ∈ bs.decorated <;>
      simp [Borg.construct, hd, hbmiss, hbraise, runInit_shared,
        lookupA_updateA_self]

/-- A concrete class whose constructor always raises. -/
def exSingFail : SingClass := ⟨"<class 'T2'>", fun _ _ => true⟩

/-- A concrete class whose initializer writes `x = 5` and then raises. -/
def exBorgFail : BorgClass :=
  ⟨"<class 'B'>", fun _ _ => [("x", PyVal.int 5)], fun _ _ => true⟩

theorem C6_construction_failure_witness :
    Singleton.get_instance exSingFail [PyVal.int 1] [] ⟨[], 0⟩ =
      ⟨Option.none, ⟨[], 0⟩, 1⟩ ∧
    (Borg.construct exBorgFail [] [] borgInit).obj = Option.none ∧
    lookupA (Borg.construct exBorgFail [] [] borgInit).state.shared
      (to_key (.str exBorgFail.clsName) [] []) = some 0 :=
  C6_construction_failure exSingFail exBorgFail [PyVal.int 1] [] [] []
    ⟨[], 0⟩ borgInit (by decide) (by decide) (by decide) (by decide)

/-- C6 counterexample: for the borg registry the claim fails — after a
construction whose initializer raised, the key is still registered (here
with the partial write `x = 5` in the store), so a later call is NOT a
first-time miss. -/
theorem C6_counterexample_borg_entry_left :
    (Borg.construct exBorgFail [] [] borgInit).obj = Option.none ∧
    lookupA (Borg.construct exBorgFail [] [] borgInit).state.shared
      (to_key (.str exBorgFail.clsName) [] []) = some 0 ∧
    (Borg.construct exBorgFail [] [] borgInit).state.heap =
      [(0, [("x", PyVal.int 5)])] := by
  decide

/-- A concrete slotted class with two slots, `__slots__ = ('a', 'b')`. -/
def exSlotS : SlotClass := ⟨"<class 'S'>", ["a", "b"]⟩

/-- C7: contrary to the claim, the generated accessors do NOT bind their
own attribute name: `slot` is captured late, so every accessor uses the
last enumerated slot (`b`).  Writing slot `a` is read back through slot
`b`, and a later write to `b` overwrites what was written through `a`. -/
theorem C7_accessors_bind_last_slot :
    Borg.slotGet exSlotS "b"
      (Borg.slotSet exSlotS "a" (PyVal.int 1)
        (Borg.decorateSlotted exSlotS borgInit)) = PyVal.int 1 ∧
    Borg.slotGet exSlotS "a"
      (Borg.slotSet exSlotS "b" (PyVal.int 2)
        (Borg.slotSet exSlotS "a" (PyVal.int 1)
          (Borg.decorateSlotted exSlotS borgInit))) = PyVal.int 2 ∧
    Borg.slotGet exSlotS "a" (Borg.decorateSlotted exSlotS borgInit) =
      PyVal.none := by
  decide

/-- C8 counterexample: the "only if" direction of the claim fails — the
identity is rendered with `str`, not `repr`, so the distinct identities
`1` (integer) and `"1"` (string) produce the same key. -/
theorem C8_counterexample_identity_collision :
    to_key (PyVal.int 1) [] [] = to_key (PyVal.str "1") [] [] ∧
    PyVal.int 1 ≠ PyVal.str "1" := by
  decide

/-- C8 (amended): equal identities, element- and order-wise equal
positional arguments, and keyword mappings equal as sets of pairs produce
equal keys (the "if" direction), and both concrete examples of the claim
hold; the converse is dropped (see the counterexample). -/
theorem C8_key_builder_equalities (name : PyVal) (args : List PyVal)
    (kw kw' : Kwargs) (hp : kw.Perm kw') (hnd : (kw.map Prod.fst).Nodup) :
    to_key name args kw = to_key name args kw' ∧
    to_key (.str "f") [.int 1, .int 2] [("b", .int 2), ("a", .int 1)] =
      to_key (.str "f") [.int 1, .int 2] [("a", .int 1), ("b", .int 2)] ∧
    to_key (.str "f") [.int 1, .int 2] [] ≠
      to_key (.str "f") [.int 2, .int 1] [] :=
  ⟨to_key_perm name args hp hnd, by decide, by decide⟩

theorem C8_key_builder_equalities_witness :
    to_key (PyVal.str "g") [] [("b", PyVal.int 2), ("a", PyVal.int 1)] =
      to_key (PyVal.str "g") [] [("a", PyVal.int 1), ("b", PyVal.int 2)] ∧
    to_key (.str "f") [.int 1, .int 2] [("b", .int 2), ("a", .int 1)] =
      to_key (.str "f") [.int 1, .int 2] [("a", .int 1), ("b", .int 2)] ∧
    to_key (.str "f") [.int 1, .int 2] [] ≠
      to_key (.str "f") [.int 2, .int 1] [] :=
  C8_key_builder_equalities (PyVal.str "g") []
    [("b", PyVal.int 2), ("a", PyVal.int 1)]
    [("a", PyVal.int 1), ("b", PyVal.int 2)]
    (List.Perm.swap ("a", PyVal.int 1) ("b", PyVal.int 2) []) (by decide)

/-- C9: the exception wrapper returns the callable's result on a normal
completion; on a failure whose kind is recognized it returns the handler's
output instead of propagating; a failure whose kind is not recognized
propagates unmodified. -/
theorem C9_wrapper_spec (func : PyFunc) (args : List PyVal) (kwargs : Kwargs)
    (errors : List String) (msg : String)
    (error_func : String → String → PyVal) :
    (∀ v, func args kwargs = .ok v →
      wrapper func args kwargs errors msg error_func = .ok v) ∧
    (∀ e, func args kwargs = .error e → e ∈ errors →
      wrapper func args kwargs errors msg error_func =
        .ok (error_func e msg)) ∧
    (∀ e, func args kwargs = .error e → e ∉ errors →
      wrapper func args kwargs errors msg error_func = .error e) := by
  refine ⟨?_, ?_, ?_⟩
  · intro v h; unfold wrapper; rw [h]
  · intro e h he; unfold wrapper; rw [h]; simp [he]
  · intro e h he; unfold wrapper; rw [h]; simp [he]

/-- A concrete callable for the C9 witness: integer division, raising
`ZeroDivisionError` on a zero divisor and `TypeError` on non-integer
arguments. -/
def exDiv : PyFunc := fun a _ =>
  match a with
  | [PyVal.atom (.int x), PyVal.atom (.int y)] =>
      if y = 0 then .error "ZeroDivisionError" else .ok (.int (x / y))
  | _ => .error "TypeError"

/-- The default handler `print`: reports and returns `None` (the report
itself is a side effect outside the model). -/
def printHandler : String → String → PyVal := fun _ _ => PyVal.none

theorem C9_wrapper_spec_witness :
    wrapper exDiv [PyVal.int 9, PyVal.int 0] [] ["ZeroDivisionError"]
        "Unknown error" printHandler =
      .ok (printHandler "ZeroDivisionError" "Unknown error") ∧
    wrapper exDiv [PyVal.int 9, PyVal.str "x"] [] ["ZeroDivisionError"]
        "Unknown error" printHandler = .error "TypeError" ∧
    wrapper exDiv [PyVal.int 9, PyVal.int 3] [] ["ZeroDivisionError"]
        "Unknown error" printHandler = .ok (PyVal.int 3) :=
  ⟨(C9_wrapper_spec exDiv [PyVal.int 9, PyVal.int 0] [] ["ZeroDivisionError"]
      "Unknown error" printHandler).2.1 "ZeroDivisionError"
      rfl (by decide),
   (C9_wrapper_spec exDiv [PyVal.int 9, PyVal.str "x"] [] ["ZeroDivisionError"]
      "Unknown error" printHandler).2.2 "TypeError" rfl (by decide),
   (C9_wrapper_spec exDiv [PyVal.int 9, PyVal.int 3] [] ["ZeroDivisionError"]
      "Unknown error" printHandler).1 (PyVal.int 3) rfl⟩

/-- C10: on a sequence of hashable elements `unique_list` succeeds and
returns exactly the distinct elements of the input, each once, in order of
first occurrence: it equals the order-preserving deduplication
`dedupFirst`, which is duplicate-free, has the same members as the input,
and is a subsequence of the input. -/
theorem C10_unique_list_first_occurrences (seq : List PyVal)
    (h : ∀ a ∈ seq, hashable a = true) :
    unique_list seq = some (dedupFirst seq) ∧
    (dedupFirst seq).Nodup ∧
    (∀ a, a ∈ dedupFirst seq ↔ a ∈ seq) ∧
    (dedupFirst seq).Sublist seq :=
  ⟨unique_list_eq_dedupFirst seq h, nodup_dedupFirst seq,
   fun a => mem_dedupFirst a seq, dedupFirst_sublist seq⟩

theorem C10_unique_list_first_occurrences_witness :
    unique_list [PyVal.int 1, PyVal.int 2, PyVal.int 1, PyVal.str "a",
        PyVal.int 2] =
      some (dedupFirst [PyVal.int 1, PyVal.int 2, PyVal.int 1, PyVal.str "a",
        PyVal.int 2]) ∧
    (dedupFirst [PyVal.int 1, PyVal.int 2, PyVal.int 1, PyVal.str "a",
        PyVal.int 2]).Nodup ∧
    (∀ a, a ∈ dedupFirst [PyVal.int 1, PyVal.int 2, PyVal.int 1, PyVal.str "a",
        PyVal.int 2] ↔
      a ∈ [PyVal.int 1, PyVal.int 2, PyVal.int 1, PyVal.str "a", PyVal.int 2]) ∧
    (dedupFirst [PyVal.int 1, PyVal.int 2, PyVal.int 1, PyVal.str "a",
        PyVal.int 2]).Sublist
      [PyVal.int 1, PyVal.int 2, PyVal.int 1, PyVal.str "a", PyVal.int 2] :=
  C10_unique_list_first_occurrences
    [PyVal.int 1, PyVal.int 2, PyVal.int 1, PyVal.str "a", PyVal.int 2]
    (by decide)
